import Mathlib

/-!
Shallow embedding of the duration codec in `src/mpd/segment.go` of
Cawb07/go-dash (package `mpd`).  The codec consists of the `Duration`
value type (a signed 64-bit count of nanosecond ticks, `type Duration
time.Duration`), its unit-ladder constants, the formatter
`Duration.String` with helpers `fmtFrac` / `fmtInt`, the parser
`parseDuration` with its validation regex `xmlDurationRegex`, the
truncation operation `Duration.Truncate`, and the XML attribute hook
`UnmarshalXMLAttr`.

Machine integers are embedded as `Int`/`Nat`; theorems that depend on the
64-bit range carry the range as an explicit hypothesis.
-/

/-- `type Duration time.Duration`: a signed count of nanosecond ticks. -/
abbrev Duration := Int

/-- `Nanosecond Duration = 1` -/
def Nanosecond : Duration := 1

/-- `Microsecond = 1000 * Nanosecond` -/
def Microsecond : Duration := 1000 * Nanosecond

/-- `Millisecond = 1000 * Microsecond` -/
def Millisecond : Duration := 1000 * Microsecond

/-- `Second = 1000 * Millisecond` -/
def Second : Duration := 1000 * Millisecond

/-- `Minute = 60 * Second` -/
def Minute : Duration := 60 * Second

/-- `Hour = 60 * Minute` -/
def Hour : Duration := 60 * Minute

/-- `func (d Duration) Nanoseconds() int64 { return int64(d) }` -/
def Duration.Nanoseconds (d : Int) : Int := d

/-- `func (d Duration) Truncate(m Duration) Duration`: Go's `%` on signed
integers truncates toward zero, which is `Int.tmod`. -/
def Duration.Truncate (d m : Int) : Int :=
  if m ≤ 0 then d else d - Int.tmod d m

/-- One step of the digit loops of `fmtInt`/`fmtFrac`: the byte
`byte(digit) + '0'` as a character ('0' is 48). -/
def digitChar (digit : Nat) : Char := Char.ofNat (digit + 48)

/-- The loop body of `fmtInt` (`for v > 0 { w--; buf[w] = byte(v%10)+'0';
v /= 10 }`), which fills the buffer back to front; prepending to `acc`
models writing at the decremented cursor.  The extra `fuel` argument makes
the recursion structural; every call in the codec passes `fmtIntFuel`,
which exceeds the digit count of any `uint64` value, so the fuel never
runs out on the values the Go code can pass (proved by the length lemmas
below never needing the exhaustion branch). -/
def fmtIntAux : Nat → Nat → List Char → List Char
  | 0, _, acc => acc
  | fuel + 1, v, acc =>
    if v = 0 then acc
    else fmtIntAux fuel (v / 10) (digitChar (v % 10) :: acc)

/-- `uint64` values have at most 20 decimal digits (`2^64 < 10^20`). -/
def fmtIntFuel : Nat := 24

/-- `func fmtInt(buf []byte, v uint64) int`: formats `v` into the tail of
the buffer, writing a single `'0'` when `v == 0`.  Returns the characters
written (the Go function returns the new cursor; the written characters
determine it). -/
def fmtInt (v : Nat) : List Char :=
  if v = 0 then ['0'] else fmtIntAux fmtIntFuel v []

/-- The loop of `fmtFrac` (`for i := 0; i < prec; i++`): processes the
least significant digit first (written rightmost), carrying the `print`
flag that suppresses trailing zero digits.  Returns the characters
written (most significant first, as they sit in the buffer), the final
`print` flag, and the remaining value. -/
def fmtFracAux : Nat → Nat → Bool → List Char × Bool × Nat
  | 0, v, pr => ([], pr, v)
  | prec + 1, v, pr =>
    let digit := v % 10
    let pr1 := pr || decide (digit ≠ 0)
    let rest := fmtFracAux prec (v / 10) pr1
    ((if pr1 then rest.1 ++ [digitChar digit] else rest.1), rest.2.1, rest.2.2)

/-- `func fmtFrac(buf []byte, v uint64, prec int) (nw int, nv uint64)`:
formats the fraction `v/10**prec` into the tail of the buffer, omitting
trailing zeros and the decimal point when the fraction is zero; returns
the characters written and `v/10**prec`. -/
def fmtFrac (v : Nat) (prec : Nat) : List Char × Nat :=
  let r := fmtFracAux prec v false
  ((if r.2.1 then '.' :: r.1 else r.1), r.2.2)

/-- The slice of the 32-byte buffer that `Duration.String` returns as
`string(buf[w:])`, without the sign: every character the assembled
fields cover, including positions the cursor skipped.  `u` is
`uint64(*d)` negated when negative, which for an `int64` input is
`d.natAbs`.  In the sub-second branch the `switch` choosing a unit
letter and a precision is commented out in the source, so `prec` keeps
the zero value of `var prec int` (making `fmtFrac` a no-op and `fmtInt`
render the raw tick count), and the second `w--` steps over the
unit-letter slot without writing it: that byte keeps the array's zero
value and appears in the returned string as a NUL between the digits
and the `'S'`. -/
def durationBody (d : Int) : List Char :=
  let u : Nat := d.natAbs
  if u < 1000000000 then
    -- Special case: duration smaller than a second (the `u == 0` early
    -- return is handled in `durationString`).
    let prec : Nat := 0
    let f := fmtFrac u prec
    fmtInt f.2 ++ f.1 ++ [Char.ofNat 0, 'S']
  else
    let f := fmtFrac u 9
    -- f.2 is now integer seconds
    let secs := fmtInt (f.2 % 60) ++ f.1 ++ ['S']
    let u2 := f.2 / 60
    -- u2 is now integer minutes
    if u2 > 0 then
      let mins := fmtInt (u2 % 60) ++ ['M']
      let u3 := u2 / 60
      -- u3 is now integer hours; stop at hours
      if u3 > 0 then fmtInt u3 ++ ['H'] ++ mins ++ secs
      else mins ++ secs
    else secs

/-- Everything written into the buffer and returned as `string(buf[w:])`:
the `-` sign written last (leftmost) when the value is negative, then the
assembled fields. -/
def durationTail (d : Int) : List Char :=
  (if d < 0 then ['-'] else []) ++ durationBody d

/-- `func (d *Duration) String() string`: the exact zero duration
short-circuits to the literal `"PT0S"`; otherwise the result is `"PT" +
string(buf[w:])`. -/
def durationString (d : Int) : String :=
  if d.natAbs = 0 then "PT0S"
  else "PT" ++ String.mk (durationTail d)

/-- One optional field group of `xmlDurationRegex`, e.g. `(\d+D)?`:
a nonempty run of characters satisfying `p` followed by the designator
letter.  Returns the matched text (designator included, as the regex
group captures it) and the remaining input; an empty first component
means the optional group did not participate and no input was consumed.
Because the run characters never satisfy the designator test, the
regex's greedy matching of each group is equivalent to this
deterministic longest-run match. -/
def matchField (p : Char → Bool) (desig : Char) (cs : List Char) :
    String × List Char :=
  let run := cs.takeWhile p
  match cs.dropWhile p with
  | c :: rest1 =>
    if run ≠ [] ∧ c = desig then (String.mk (run ++ [c]), rest1) else ("", cs)
  | [] => ("", cs)

/-- The character class `[\d.]` of the seconds group. -/
def digitOrDot (c : Char) : Bool := c.isDigit || c = '.'

/-- `xmlDurationRegex = ^P(\d+D)?(?:T(\d+H)?(\d+M)?([\d.]+S)?)?$` —
`Match` plus `FindStringSubmatch` combined: `none` when the anchored
regex does not match, otherwise the four captured groups (empty string
for a non-participating group), exactly as Go's regexp returns them. -/
def xmlDurationMatch (s : String) : Option (String × String × String × String) :=
  match s.data with
  | 'P' :: r0 =>
    match (matchField Char.isDigit 'D' r0).2 with
    | 'T' :: r2 =>
      if (matchField digitOrDot 'S'
            (matchField Char.isDigit 'M' (matchField Char.isDigit 'H' r2).2).2).2 = []
      then
        some ((matchField Char.isDigit 'D' r0).1,
          (matchField Char.isDigit 'H' r2).1,
          (matchField Char.isDigit 'M' (matchField Char.isDigit 'H' r2).2).1,
          (matchField digitOrDot 'S'
            (matchField Char.isDigit 'M' (matchField Char.isDigit 'H' r2).2).2).1)
      else none
    | _ =>
      if (matchField Char.isDigit 'D' r0).2 = []
      then some ((matchField Char.isDigit 'D' r0).1, "", "", "")
      else none
  | _ => none

/-- `strings.TrimRight(s, cutset)` for a one-character cutset. -/
def trimRight (s : String) (c : Char) : String :=
  String.mk ((s.data.reverse.dropWhile (fun x => x = c)).reverse)

/-- Numeric value of a digit string (most significant digit first). -/
def natOfDigits (cs : List Char) : Nat :=
  cs.foldl (fun a c => 10 * a + (c.toNat - 48)) 0

/-- `math.MaxInt64`, the upper bound of `strconv.Atoi` on 64-bit. -/
def maxInt64 : Nat := 9223372036854775807

/-- `strconv.ParseFloat(_, 64)` overflows to `±Inf` with `ErrRange`
exactly when the decimal value rounds to at least
`2^1024 - 2^970` (the rounding midpoint above the largest finite
`float64`); that bound is spelled as a literal so that it evaluates. -/
def float64Overflow : Nat := 179769313486231580793728971405303415079934132710037826936173778980444968292764750946649017977587207096330286416692887910946555547851940402630657488671505820681908902000708383676273854845817711531764475730270069855571366959622842914819860834936475292719074168444365510704342711559699508093042880177904174497792

/-- `strconv.Atoi` restricted to the inputs `parseDuration` can pass it:
the sign-free strings matched by `\d+` (the general Atoi also accepts a
leading sign, which the `-`-rejection and the regex make unreachable
here).  Fails with `ErrRange` beyond `int64`. -/
def goAtoi (s : String) : Except String Int :=
  if s.data ≠ [] ∧ s.data.all Char.isDigit then
    if natOfDigits s.data ≤ maxInt64 then .ok (natOfDigits s.data)
    else .error "value out of range"
  else .error "invalid syntax"

/-- `secs, err := strconv.ParseFloat(s, 64)` followed by
`time.Duration(secs * float64(time.Second))`, restricted to the strings
`[\d.]+` can produce (digits and dots; the general ParseFloat grammar
with signs, exponents and hex floats is unreachable through the regex).
ParseFloat accepts such a string iff it has at least one digit and at
most one dot, with `ErrRange` past the `float64` range.  The value is
computed exactly — `intpart.fracpart` seconds scaled by `10^9` and
truncated toward zero — which agrees with the Go float64 computation on
every input whose result is exactly representable (in particular on all
integer second counts below `2^53`, the only values the theorems below
evaluate), but can differ by one tick on fractions long enough to make
the double rounding through `float64` visible. -/
def secsToTicks (s : String) : Except String Int :=
  let cs := s.data
  if cs.any Char.isDigit ∧ cs.count '.' ≤ 1 ∧ cs.all digitOrDot then
    let ip := cs.takeWhile (fun c => c ≠ '.')
    let fp := (cs.dropWhile (fun c => c ≠ '.')).drop 1
    if natOfDigits ip < float64Overflow then
      .ok (natOfDigits ip * 1000000000 + natOfDigits fp * 1000000000 / 10 ^ fp.length)
    else .error "value out of range"
  else .error "invalid syntax"

/-- `parts[1]`: `days * time.Hour * 24` added to the total. -/
def parseDaysField (p : String) : Except String Int :=
  if p ≠ "" then
    match goAtoi ( trimRight p 'D') with
    | .error e => .error ("Error parsing Days: " ++ e)
    | .ok days => .ok (days * Hour * 24)
  else .ok 0

/-- `parts[2]`: `hours * time.Hour`. -/
def parseHoursField (p : String) : Except String Int :=
  if p ≠ "" then
    match goAtoi ( trimRight p 'H') with
    | .error e => .error ("Error parsing Hours: " ++ e)
    | .ok hours => .ok (hours * Hour)
  else .ok 0

/-- `parts[3]`: `mins * time.Minute`. -/
def parseMinutesField (p : String) : Except String Int :=
  if p ≠ "" then
    match goAtoi ( trimRight p 'M') with
    | .error e => .error ("Error parsing Minutes: " ++ e)
    | .ok mins => .ok (mins * Minute)
  else .ok 0

/-- `parts[4]`: fractional seconds scaled by `time.Second`. -/
def parseSecondsField (p : String) : Except String Int :=
  if p ≠ "" then
    match secsToTicks ( trimRight p 'S') with
    | .error e => .error ("Error parsing Seconds: " ++ e)
    | .ok t => .ok t
  else .ok 0

/-- `func parseDuration(str string) (time.Duration, error)`: length check,
`strings.Contains(str, "-")` check, anchored regex match, then per-field
conversion and accumulation. -/
def parseDuration (str : String) : Except String Int :=
  if str.length < 3 then
    .error "At least one number and designator are required"
  else if '-' ∈ str.data then
    .error "Duration cannot be negative"
  else
    match xmlDurationMatch str with
    | none => .error "Duration must be in the format: P[nD][T[nH][nM][nS]]"
    | some (p1, p2, p3, p4) =>
      match parseDaysField p1 with
      | .error e => .error e
      | .ok d =>
        match parseHoursField p2 with
        | .error e => .error e
        | .ok h =>
          match parseMinutesField p3 with
          | .error e => .error e
          | .ok m =>
            match parseSecondsField p4 with
            | .error e => .error e
            | .ok s => .ok (d + h + m + s)

/-- `func (d *Duration) UnmarshalXMLAttr(attr xml.Attr) error`: the pair
is (returned error, receiver value after the call), the receiver holding
`d` before the call.  The receiver is written only after a successful
parse. -/
def unmarshalXMLAttr (d : Int) (attrValue : String) :
    Option String × Int :=
  match parseDuration attrValue with
  | .error e => (some e, d)
  | .ok dur => (none, dur)

/-- `func (d Duration) MarshalXMLAttr`: renders via `String`, never an
error. -/
def marshalXMLAttr (d : Int) : String := durationString d

/-- A captured integer field that `strconv.Atoi` converts successfully:
either absent, or its designator-trimmed text is a nonempty digit string
whose value fits in `int64`. -/
@[reducible] def atoiOkInput (p : String) (desig : Char) : Prop :=
  p = "" ∨
    (( trimRight p desig).data ≠ [] ∧
     ( trimRight p desig).data.all Char.isDigit ∧
     natOfDigits (( trimRight p desig).data) ≤ maxInt64)

/-- A captured seconds field that `strconv.ParseFloat` converts
successfully: either absent, or its `S`-trimmed text has at least one
digit, at most one dot, only digits and dots, and an integer part below
the `float64` overflow threshold. -/
@[reducible] def secsOkInput (p : String) : Prop :=
  p = "" ∨
    (( trimRight p 'S').data.any Char.isDigit ∧
     ( trimRight p 'S').data.count '.' ≤ 1 ∧
     ( trimRight p 'S').data.all digitOrDot ∧
     natOfDigits (( trimRight p 'S').data.takeWhile (fun c => c ≠ '.')) <
       float64Overflow)

/-- Go's `%` negates with the dividend: `(-a) % b = -(a % b)`. -/
theorem tmod_neg_left (a b : Int) : Int.tmod (-a) b = -Int.tmod a b := by
  rw [Int.tmod_def, Int.tmod_def, Int.neg_tdiv]; ring

/-- C1: the claim's general sub-second statement and its
`String(500 * Millisecond) = "PT0.5S"` instance fail on the code: the
unit-selection switch in the sub-second branch is commented out, so
`prec` keeps the zero value of `var prec int`, `fmtFrac` never strips a
fraction, `fmtInt` renders the raw nanosecond count, and the skipped
unit-letter slot surfaces as a NUL byte before the `'S'` suffix.  The
code therefore emits the 13-byte `"PT500000000\x00S"`; only the
`String(0) = "PT0S"` part of the claim holds. -/
theorem c1_subsecond_raw_ticks :
    durationString (500 * Millisecond) = "PT500000000\x00S" ∧
    durationString (500 * Millisecond) ≠ "PT0.5S" ∧
    durationString 0 = "PT0S" := by
  refine ⟨by decide, by decide, by decide⟩

/-- C2 counterexample: `Hour + 30*Minute` does not format as
`"PT1H30M"`; the formatter always emits the seconds field, giving
`"PT1H30M0S"`. -/
theorem c2_format_counterexample :
    durationString (Hour + 30 * Minute) = "PT1H30M0S" ∧
    durationString (Hour + 30 * Minute) ≠ "PT1H30M" := by
  refine ⟨by decide, by decide⟩

/-- C2 (amended): the four round-trips hold tick-for-tick, with
`Hour + 30*Minute` formatting as `"PT1H30M0S"` (seconds field always
present) rather than `"PT1H30M"`. -/
theorem c2_roundtrip :
    durationString 0 = "PT0S" ∧
    parseDuration "PT0S" = .ok 0 ∧
    durationString (90 * Second) = "PT1M30S" ∧
    parseDuration "PT1M30S" = .ok (90 * Second) ∧
    durationString (3661 * Second) = "PT1H1M1S" ∧
    parseDuration "PT1H1M1S" = .ok (3661 * Second) ∧
    durationString (Hour + 30 * Minute) = "PT1H30M0S" ∧
    parseDuration "PT1H30M0S" = .ok (Hour + 30 * Minute) := by
  refine ⟨by decide, rfl, by decide, rfl, by decide, rfl, by decide, rfl⟩

/-- C5 counterexample: `String(-1 * Second)` is `"PT-1S"`: the sign is
written into the buffer after the fields and the `"PT"` literal is
prepended to the whole buffer, so the `-` lands between `PT` and the
fields, not ahead of `PT`. -/
theorem c5_sign_counterexample :
    durationString (-(1 * Second)) = "PT-1S" ∧
    (durationString (-(1 * Second))).data.head? ≠ some '-' := by
  refine ⟨by decide, by decide⟩

/-- C5 (amended): for every negative duration the rendered string is the
`PT` prefix, then the recorded `-` sign, then the assembled fields. -/
theorem c5_sign_after_pt (d : Int) (h : d < 0) :
    (durationString d).data = 'P' :: 'T' :: '-' :: durationBody d := by
  have h0 : ¬ d.natAbs = 0 := by
    intro h0
    rw [Int.natAbs_eq_zero] at h0
    subst h0
    exact absurd h (by decide)
  unfold durationString durationTail
  rw [if_neg h0, if_pos h]
  rfl

/-- C5 witness: the amended statement at `-1` second. -/
theorem c5_sign_after_pt_witness :
    (durationString (-1000000000)).data =
      'P' :: 'T' :: '-' :: durationBody (-1000000000) :=
  c5_sign_after_pt (-1000000000) (by decide)

/-- C6: each of the five inputs in the rejection set fails `parseDuration`
with an error (the empty and too-short strings at the length check,
`"P-1D"` at the sign check, `"P1Y"` and `"PT1M1H"` at the grammar check),
and no duration value is produced. -/
theorem c6_rejection_set :
    (∃ e, parseDuration "" = .error e) ∧
    (∃ e, parseDuration "1H" = .error e) ∧
    (∃ e, parseDuration "P-1D" = .error e) ∧
    (∃ e, parseDuration "P1Y" = .error e) ∧
    (∃ e, parseDuration "PT1M1H" = .error e) :=
  ⟨⟨_, rfl⟩, ⟨_, rfl⟩, ⟨_, rfl⟩, ⟨_, rfl⟩, ⟨_, rfl⟩⟩

/-- C7: every input containing a `-` character anywhere is rejected with
an error (at the length check when shorter than three characters,
otherwise at the dedicated sign check); no negative duration is ever
parsed from text. -/
theorem c7_dash_rejected (s : String) (h : '-' ∈ s.data) :
    ∃ e, parseDuration s = .error e := by
  unfold parseDuration
  rw [if_pos h]
  split
  · exact ⟨_, rfl⟩
  · exact ⟨_, rfl⟩

/-- C7 witness at `"P-1D"`. -/
theorem c7_dash_rejected_witness : ∃ e, parseDuration "P-1D" = .error e :=
  c7_dash_rejected "P-1D" (by decide)

/-- C8: `Truncate` with a non-positive unit is the identity; with a
positive unit `m` it returns the multiple of `m` nearest to `d` on the
zero side of `d` (within `m` of `d`, between `0` and `d`); and
`Truncate(90*Second, Minute) = 60*Second` exactly. -/
theorem c8_truncate_correct (d m : Int) :
    (m ≤ 0 → Duration.Truncate d m = d) ∧
    (0 < m →
      m ∣ Duration.Truncate d m ∧
      (0 ≤ d → 0 ≤ Duration.Truncate d m ∧ Duration.Truncate d m ≤ d ∧
        d < Duration.Truncate d m + m) ∧
      (d ≤ 0 → Duration.Truncate d m ≤ 0 ∧ d ≤ Duration.Truncate d m ∧
        Duration.Truncate d m - m < d)) ∧
    Duration.Truncate (90 * Second) Minute = 60 * Second := by
  refine ⟨fun hm => ?_, fun hm => ?_, by decide⟩
  · unfold Duration.Truncate
    rw [if_pos hm]
  · have hm' : ¬ m ≤ 0 := by omega
    unfold Duration.Truncate
    rw [if_neg hm']
    refine ⟨⟨d.tdiv m, by rw [Int.tmod_def]; ring⟩, fun hd => ?_, fun hd => ?_⟩
    · have h1 : 0 ≤ Int.tmod d m := Int.tmod_nonneg m hd
      have h2 : Int.tmod d m < m := Int.tmod_lt_of_pos d hm
      have h3 : 0 ≤ m * (d.tdiv m) :=
        Int.mul_nonneg (le_of_lt hm) (Int.tdiv_nonneg hd (le_of_lt hm))
      have h4 : d - Int.tmod d m = m * (d.tdiv m) := by
        rw [Int.tmod_def]; ring
      omega
    · have hd' : 0 ≤ -d := by omega
      have h1 : 0 ≤ Int.tmod (-d) m := Int.tmod_nonneg m hd'
      have h2 : Int.tmod (-d) m < m := Int.tmod_lt_of_pos (-d) hm
      have h3 : 0 ≤ m * ((-d).tdiv m) :=
        Int.mul_nonneg (le_of_lt hm) (Int.tdiv_nonneg hd' (le_of_lt hm))
      have h4 : (-d) - Int.tmod (-d) m = m * ((-d).tdiv m) := by
        rw [Int.tmod_def]; ring
      have h5 := tmod_neg_left (-d) m
      rw [neg_neg] at h5
      omega

/-- C8 witness: the identity branch at `m = -7` and the positive branch
at `d = 130`, `m = 60`. -/
theorem c8_truncate_witness :
    Duration.Truncate 90 (-7) = 90 ∧ 0 ≤ Duration.Truncate 130 60 :=
  ⟨(c8_truncate_correct 90 (-7)).1 (by decide),
   (((c8_truncate_correct 130 60).2.1 (by decide)).2.1 (by decide)).1⟩

/-- C10: `UnmarshalXMLAttr` is atomic — a failing parse returns the parse
error and leaves the receiver untouched; the receiver is overwritten only
on success. -/
theorem c10_unmarshal_atomic (d : Int) (s : String) :
    (∀ e, parseDuration s = .error e → unmarshalXMLAttr d s = (some e, d)) ∧
    (∀ v, parseDuration s = .ok v → unmarshalXMLAttr d s = (none, v)) := by
  constructor <;> intro x hx <;> simp [unmarshalXMLAttr, hx]

/-- C10 witness: a failing parse (empty attribute) leaves receiver `7`. -/
theorem c10_unmarshal_atomic_witness :
    unmarshalXMLAttr 7 "" =
      (some "At least one number and designator are required", 7) :=
  (c10_unmarshal_atomic 7 "").1 _ rfl


/-- The digit loop writes at most one character per decimal digit of `v`:
whatever the fuel, the output extends `acc` by at most `k` characters when
`v < 10^k`. -/
theorem fmtIntAux_length (fuel : Nat) :
    ∀ (v : Nat) (acc : List Char) (k : Nat), v < 10 ^ k →
      (fmtIntAux fuel v acc).length ≤ k + acc.length := by
  induction fuel with
  | zero => intro v acc k _; simp [fmtIntAux]
  | succ fuel ih =>
    intro v acc k hv
    unfold fmtIntAux
    split
    · omega
    · next hv0 =>
      cases k with
      | zero => omega
      | succ k =>
        have hdiv : v / 10 < 10 ^ k := by
          rw [Nat.div_lt_iff_lt_mul (by norm_num)]
          calc v < 10 ^ (k + 1) := hv
            _ = 10 ^ k * 10 := by rw [Nat.pow_succ]
        have := ih (v / 10) (digitChar (v % 10) :: acc) k hdiv
        simp only [List.length_cons] at this
        omega

/-- `fmtInt` writes at most `k` characters when `v < 10^k`. -/
theorem fmtInt_length (v k : Nat) (hv : v < 10 ^ k) (hk : 0 < k) :
    (fmtInt v).length ≤ k := by
  unfold fmtInt
  split
  · simpa using hk
  · simpa using fmtIntAux_length fmtIntFuel v [] k hv

/-- The fraction loop writes at most `prec` digit characters. -/
theorem fmtFracAux_length (prec : Nat) :
    ∀ (v : Nat) (pr : Bool), (fmtFracAux prec v pr).1.length ≤ prec := by
  induction prec with
  | zero => intro v pr; simp [fmtFracAux]
  | succ p ih =>
    intro v pr
    unfold fmtFracAux
    simp only []
    split
    · simp only [List.length_append, List.length_cons, List.length_nil]
      have := ih (v / 10) (pr || decide (v % 10 ≠ 0))
      omega
    · have := ih (v / 10) (pr || decide (v % 10 ≠ 0))
      omega

/-- The fraction loop returns `v / 10^prec`. -/
theorem fmtFracAux_val (prec : Nat) :
    ∀ (v : Nat) (pr : Bool), (fmtFracAux prec v pr).2.2 = v / 10 ^ prec := by
  induction prec with
  | zero => intro v pr; simp [fmtFracAux]
  | succ p ih =>
    intro v pr
    unfold fmtFracAux
    simp only []
    rw [ih (v / 10) (pr || decide (v % 10 ≠ 0))]
    rw [Nat.div_div_eq_div_mul]
    congr 1
    rw [Nat.pow_succ, Nat.mul_comm]

/-- `fmtFrac` writes at most `prec` digits plus the decimal point. -/
theorem fmtFrac_length (v prec : Nat) : (fmtFrac v prec).1.length ≤ prec + 1 := by
  unfold fmtFrac
  simp only []
  split
  · simp only [List.length_cons]
    have := fmtFracAux_length prec v false
    omega
  · have := fmtFracAux_length prec v false
    omega

/-- `fmtFrac` returns `v / 10^prec` as the remaining value. -/
theorem fmtFrac_val (v prec : Nat) : (fmtFrac v prec).2 = v / 10 ^ prec :=
  fmtFracAux_val prec v false

/-- The assembled fields fit in 24 bytes for every value up to `2^63`
(`uint64(abs d)` of an `int64`): two digits each for seconds and minutes,
at most ten for the fraction with its point, at most seven hour digits,
and three unit letters. -/
theorem durationBody_length (d : Int) (h : d.natAbs ≤ 2 ^ 63) :
    (durationBody d).length ≤ 24 := by
  unfold durationBody
  simp only []
  split
  · next hlt =>
    have h9 : (fmtFrac d.natAbs 0).2 < 10 ^ 9 := by
      rw [fmtFrac_val]
      simpa using hlt
    have h1 : (fmtInt (fmtFrac d.natAbs 0).2).length ≤ 9 :=
      fmtInt_length _ 9 h9 (by norm_num)
    have h2 : (fmtFrac d.natAbs 0).1.length ≤ 1 := fmtFrac_length _ 0
    simp only [List.length_append, List.length_cons, List.length_nil]
    omega
  · have hsec : (fmtInt ((fmtFrac d.natAbs 9).2 % 60)).length ≤ 2 :=
      fmtInt_length _ 2 (lt_of_lt_of_le (Nat.mod_lt _ (by norm_num)) (by norm_num))
        (by norm_num)
    have hfr : (fmtFrac d.natAbs 9).1.length ≤ 10 := fmtFrac_length _ 9
    have hu1 : (fmtFrac d.natAbs 9).2 ≤ 9223372036 := by
      rw [fmtFrac_val]
      calc d.natAbs / 10 ^ 9 ≤ 2 ^ 63 / 10 ^ 9 := Nat.div_le_div_right h
        _ = 9223372036 := by norm_num
    split
    · have hmin : (fmtInt ((fmtFrac d.natAbs 9).2 / 60 % 60)).length ≤ 2 :=
        fmtInt_length _ 2 (lt_of_lt_of_le (Nat.mod_lt _ (by norm_num)) (by norm_num))
          (by norm_num)
      have hu3 : (fmtFrac d.natAbs 9).2 / 60 / 60 < 10 ^ 7 := by
        calc (fmtFrac d.natAbs 9).2 / 60 / 60 ≤ 9223372036 / 60 / 60 := by
              exact Nat.div_le_div_right (Nat.div_le_div_right hu1)
          _ < 10 ^ 7 := by norm_num
      have hhr : (fmtInt ((fmtFrac d.natAbs 9).2 / 60 / 60)).length ≤ 7 :=
        fmtInt_length _ 7 hu3 (by norm_num)
      split
      · simp only [List.length_append, List.length_cons, List.length_nil]
        omega
      · simp only [List.length_append, List.length_cons, List.length_nil]
        omega
    · simp only [List.length_append, List.length_cons, List.length_nil]
      omega

/-- C9: formatting is total (the formatter is a pure function defined for
every tick count) and every write into the 32-byte buffer is in bounds.
The buffer is filled strictly back to front: every cursor decrement
contributes one character of the returned tail — including the
sub-second unit-letter slot that is stepped over without a write and
surfaces as a NUL — so the total cursor travel equals the tail length,
and all cursor positions (hence all writes) stay in bounds exactly when
the tail has at most 32 characters. -/
theorem c9_buffer_bound (d : Int) (h1 : -(2 ^ 63) ≤ d) (h2 : d < 2 ^ 63) :
    (durationTail d).length ≤ 32 := by
  have habs : d.natAbs ≤ 2 ^ 63 := by
    have : (2 : Int) ^ 63 = 9223372036854775808 := by norm_num
    omega
  have hbody := durationBody_length d habs
  unfold durationTail
  split
  · simp only [List.length_append, List.length_cons, List.length_nil]
    omega
  · simp only [List.nil_append]
    omega

/-- C9 witness at the most negative `int64` tick count. -/
theorem c9_buffer_bound_witness :
    (durationTail (-9223372036854775808)).length ≤ 32 :=
  c9_buffer_bound (-9223372036854775808) (by norm_num) (by norm_num)

/-- `goAtoi` succeeds on nonempty in-range digit strings. -/
theorem goAtoi_ok (s : String) (h1 : s.data ≠ []) (h2 : s.data.all Char.isDigit)
    (h3 : natOfDigits s.data ≤ maxInt64) :
    goAtoi s = .ok (natOfDigits s.data) := by
  unfold goAtoi
  rw [if_pos ⟨h1, h2⟩, if_pos h3]

/-- `secsToTicks` succeeds on well-formed in-range decimal strings. -/
theorem secsToTicks_ok (s : String)
    (h1 : s.data.any Char.isDigit) (h2 : s.data.count '.' ≤ 1)
    (h3 : s.data.all digitOrDot)
    (h4 : natOfDigits (s.data.takeWhile (fun c => c ≠ '.')) < float64Overflow) :
    ∃ v, secsToTicks s = .ok v := by
  unfold secsToTicks
  rw [if_pos ⟨h1, h2, h3⟩]
  simp only []
  rw [if_pos h4]
  exact ⟨_, rfl⟩

/-- The days field converts when well-formed. -/
theorem parseDaysField_ok (p : String) (h : atoiOkInput p 'D') :
    ∃ v, parseDaysField p = .ok v := by
  unfold parseDaysField
  by_cases hp : p = ""
  · rw [if_neg (fun hne => hne hp)]
    exact ⟨0, rfl⟩
  · rcases h with h | ⟨h1, h2, h3⟩
    · exact absurd h hp
    · rw [if_pos hp, goAtoi_ok _ h1 h2 h3]
      exact ⟨_, rfl⟩

/-- The hours field converts when well-formed. -/
theorem parseHoursField_ok (p : String) (h : atoiOkInput p 'H') :
    ∃ v, parseHoursField p = .ok v := by
  unfold parseHoursField
  by_cases hp : p = ""
  · rw [if_neg (fun hne => hne hp)]
    exact ⟨0, rfl⟩
  · rcases h with h | ⟨h1, h2, h3⟩
    · exact absurd h hp
    · rw [if_pos hp, goAtoi_ok _ h1 h2 h3]
      exact ⟨_, rfl⟩

/-- The minutes field converts when well-formed. -/
theorem parseMinutesField_ok (p : String) (h : atoiOkInput p 'M') :
    ∃ v, parseMinutesField p = .ok v := by
  unfold parseMinutesField
  by_cases hp : p = ""
  · rw [if_neg (fun hne => hne hp)]
    exact ⟨0, rfl⟩
  · rcases h with h | ⟨h1, h2, h3⟩
    · exact absurd h hp
    · rw [if_pos hp, goAtoi_ok _ h1 h2 h3]
      exact ⟨_, rfl⟩

/-- The seconds field converts when well-formed. -/
theorem parseSecondsField_ok (p : String) (h : secsOkInput p) :
    ∃ v, parseSecondsField p = .ok v := by
  unfold parseSecondsField
  by_cases hp : p = ""
  · rw [if_neg (fun hne => hne hp)]
    exact ⟨0, rfl⟩
  · rcases h with h | ⟨h1, h2, h3, h4⟩
    · exact absurd h hp
    · obtain ⟨v, hv⟩ := secsToTicks_ok _ h1 h2 h3 h4
      rw [if_pos hp, hv]
      exact ⟨_, rfl⟩

/-- C3 counterexample: `"PT.S"` passes the length, sign and grammar
checks (the seconds group `[\d.]+S` matches `.S`), yet the seconds
conversion fails — `strconv.ParseFloat` rejects `"."` — so the per-field
conversion-failure branch is reachable for grammar-accepted input. -/
theorem c3_conversion_failure_reachable :
    xmlDurationMatch "PT.S" = some ("", "", "", ".S") ∧
    ¬ "PT.S".length < 3 ∧ '-' ∉ "PT.S".data ∧
    parseDuration "PT.S" = .error ("Error parsing Seconds: " ++ "invalid syntax") := by
  refine ⟨by decide, by decide, by decide, rfl⟩

/-- C3 (amended): the conversion branch is reachable (see the
counterexample), but conversions do succeed for every grammar-accepted
input whose matched fields are numerically well-formed and in range:
integer fields fitting `int64` and a seconds field with at least one
digit, at most one dot, and an integer part inside the `float64` range. -/
theorem c3_wellformed_conversions_succeed (s df hf mf sf : String)
    (hm : xmlDurationMatch s = some (df, hf, mf, sf))
    (hd : atoiOkInput df 'D') (hh : atoiOkInput hf 'H')
    (hmn : atoiOkInput mf 'M') (hs : secsOkInput sf)
    (hlen : ¬ s.length < 3) (hneg : '-' ∉ s.data) :
    ∃ v, parseDuration s = .ok v := by
  obtain ⟨v1, h1⟩ := parseDaysField_ok df hd
  obtain ⟨v2, h2⟩ := parseHoursField_ok hf hh
  obtain ⟨v3, h3⟩ := parseMinutesField_ok mf hmn
  obtain ⟨v4, h4⟩ := parseSecondsField_ok sf hs
  unfold parseDuration
  simp only [if_neg hlen, if_neg hneg, hm, h1, h2, h3, h4]
  exact ⟨_, rfl⟩

/-- C3 witness: a fully populated well-formed input. -/
theorem c3_wellformed_witness : ∃ v, parseDuration "P1DT2H3M4.5S" = .ok v :=
  c3_wellformed_conversions_succeed "P1DT2H3M4.5S" "1D" "2H" "3M" "4.5S"
    (by decide) (by decide) (by decide) (by decide) (by decide)
    (by decide) (by decide)

/-- A field group consumes exactly the text it captures: the input is the
captured text followed by the rest. -/
theorem matchField_split (p : Char → Bool) (c : Char) (cs : List Char) :
    cs = (matchField p c cs).1.data ++ (matchField p c cs).2 := by
  unfold matchField
  simp only []
  split
  next c1 rest1 heq =>
    split
    next hcond =>
      show cs = cs.takeWhile p ++ [c1] ++ rest1
      conv_lhs => rw [← List.takeWhile_append_dropWhile p cs]
      rw [heq]
      simp
    next hcond => simp
  next heq => simp

/-- C4 counterexample: `"P1DT"` — a `T` marker followed by no time
field — is accepted by the grammar (the whole optional `T` group matches
with all inner fields empty) and parses to one day, falsifying the
claim's assertion that such strings are rejected. -/
theorem c4_bare_t_accepted : parseDuration "P1DT" = .ok (86400 * 1000000000) := rfl

/-- C4 (amended): every accepted string decomposes as `P`, then the
captured day field, then either nothing or a `T` followed by the captured
hour, minute and second fields concatenated in that fixed order; whenever
any time field participates, the `T` marker is present.  (The converse
part of the original claim fails: a `T` followed by no time field is
accepted, see the `P1DT` counterexample.) -/
theorem c4_field_order (s : String) (v : Int) (h : parseDuration s = .ok v) :
    ∃ df hf mf sf,
      xmlDurationMatch s = some (df, hf, mf, sf) ∧
      (s.data = 'P' :: df.data ∨
        s.data = 'P' :: (df.data ++ 'T' :: (hf.data ++ (mf.data ++ sf.data)))) ∧
      ((hf ≠ "" ∨ mf ≠ "" ∨ sf ≠ "") →
        s.data = 'P' :: (df.data ++ 'T' :: (hf.data ++ (mf.data ++ sf.data)))) := by
  have hm : ∃ q, xmlDurationMatch s = some q := by
    unfold parseDuration at h
    split at h
    · exact absurd h (by simp)
    · split at h
      · exact absurd h (by simp)
      · split at h
        · exact absurd h (by simp)
        · next p1 p2 p3 p4 heq => exact ⟨(p1, p2, p3, p4), heq⟩
  obtain ⟨⟨df, hf, mf, sf⟩, heq⟩ := hm
  refine ⟨df, hf, mf, sf, heq, ?_⟩
  unfold xmlDurationMatch at heq
  split at heq
  · next r0 hs0 =>
    split at heq
    · next r2 ht =>
      split at heq
      · next hend =>
        simp only [Option.some.injEq, Prod.mk.injEq] at heq
        obtain ⟨e1, e2, e3, e4⟩ := heq
        have k0 := matchField_split Char.isDigit 'D' r0
        rw [e1, ht] at k0
        have k2 := matchField_split Char.isDigit 'H' r2
        set X := (matchField Char.isDigit 'H' r2).2 with hX
        rw [e2] at k2
        have k3 := matchField_split Char.isDigit 'M' X
        set Y := (matchField Char.isDigit 'M' X).2 with hY
        rw [e3] at k3
        have k4 := matchField_split digitOrDot 'S' Y
        rw [e4, hend, List.append_nil] at k4
        have hdata :
            s.data = 'P' :: (df.data ++ 'T' :: (hf.data ++ (mf.data ++ sf.data))) := by
          rw [hs0, k0, k2, k3, k4]
        exact ⟨Or.inr hdata, fun _ => hdata⟩
      · exact absurd heq (by simp)
    · split at heq
      · next hend =>
        simp only [Option.some.injEq, Prod.mk.injEq] at heq
        obtain ⟨e1, e2, e3, e4⟩ := heq
        have k0 := matchField_split Char.isDigit 'D' r0
        rw [e1, hend, List.append_nil] at k0
        have hdata : s.data = 'P' :: df.data := by rw [hs0, k0]
        refine ⟨Or.inl hdata, fun hne => ?_⟩
        rcases hne with hne | hne | hne <;> simp [← e2, ← e3, ← e4] at hne
      · exact absurd heq (by simp)
  · exact absurd heq (by simp)

/-- C4 witness: the amended decomposition at the accepted `"PT5S"`. -/
theorem c4_field_order_witness :
    ∃ df hf mf sf,
      xmlDurationMatch "PT5S" = some (df, hf, mf, sf) ∧
      ("PT5S".data = 'P' :: df.data ∨
        "PT5S".data = 'P' :: (df.data ++ 'T' :: (hf.data ++ (mf.data ++ sf.data)))) ∧
      ((hf ≠ "" ∨ mf ≠ "" ∨ sf ≠ "") →
        "PT5S".data = 'P' :: (df.data ++ 'T' :: (hf.data ++ (mf.data ++ sf.data)))) :=
  c4_field_order "PT5S" 5000000000 rfl
